import Mathlib

/-!
Verification of the tenant provisioning and schema-migration subsystem of the
saas-multitenant-demo repository.

The development shallowly embeds the relevant TypeScript sources:

* src/db/config/tenant-manager.ts — TenantManager.createTenant,
  applyTenantMigrations, getTenantByClerkOrgId, getTenantBySlug,
  getAllTenants, dropTenant (the variant with the migration-tracking table
  and the slug-collision remap branch, which is the one the specification's
  line references point at);
* src/db/config/database.ts — the module-level tenant connection cache and
  getTenantDb;
* src/scripts/migrate-tenants.ts — the fleet migrator;
* src/app/api/webhooks/clerk/route.ts — the slug fallback derivation passed
  to createTenant.

Strings are modelled at the character-list level: JavaScript's
String.prototype.replace with a single-character global pattern is a
character map, String.prototype.toLowerCase on the ASCII strings involved is
a per-character lowercasing, and Array.prototype.sort() on filenames is a
lexicographic sort on code units.  Database effects (registry rows, physical
schemas, per-schema migration-tracking tables, presence of the target
tables) are explicit state; whether an individual SQL statement fails is
supplied by an environment of failure oracles, and the raw SQL text itself
is abstracted to the (schema, filename) event that executes it.
-/

/-- Lexicographic comparison of character lists; embeds the default
comparison JavaScript's Array.prototype.sort() applies to the migration
filenames (code-unit order; the filenames are ASCII). -/
def charListLe : List Char → List Char → Bool
  | [], _ => true
  | _ :: _, [] => false
  | a :: as, b :: bs => if a < b then true else if b < a then false else charListLe as bs

/-- Filename comparison used by the .sort() calls on readdirSync results. -/
def fileLe (a b : String) : Bool := charListLe a.data b.data

/-- Embeds the filter file => file.endsWith(".sql") applied to the directory
listing in applyTenantMigrations and migrate-tenants.ts. -/
def hasSqlSuffix (f : String) : Bool := ".sql".data.isSuffixOf f.data

/-- readdirSync(migrationsPath).filter(endsWith ".sql").sort() — the ordered
migration file list both the provisioner and the fleet migrator compute. -/
def sortFiles (l : List String) : List String :=
  List.insertionSort (fun a b => fileLe a b = true) l

/-- Embeds the character class replace of the webhook slug fallback:
name.toLowerCase().replace(regex "one char outside a-z0-9", "-") acts per
character,
keeping lowercase ASCII letters and digits and turning everything else into
a hyphen. -/
def toDashChar (c : Char) : Char :=
  if ('a' ≤ c ∧ c ≤ 'z') ∨ ('0' ≤ c ∧ c ≤ '9') then c else '-'

/-- Embeds .replace(regex "run of hyphens", "-"): every maximal run of
hyphens collapses to a single hyphen. -/
def collapseDashes : List Char → List Char
  | [] => []
  | [c] => [c]
  | a :: b :: rest =>
    if a = '-' ∧ b = '-' then collapseDashes (b :: rest)
    else a :: collapseDashes (b :: rest)

/-- The slug fallback computed in src/app/api/webhooks/clerk/route.ts when
the organization event carries no slug:
lowercase, then replace every character outside a-z0-9 with a hyphen, then
collapse hyphen runs. -/
def deriveSlug (name : String) : String :=
  ⟨collapseDashes ((name.data.map Char.toLower).map toDashChar)⟩

/-- Embeds slug.replace(regex "-" global, "_") — a single-character global
replace, so a character map. -/
def underscoreChar (c : Char) : Char := if c = '-' then '_' else c

/-- Schema-name derivation at the top of TenantManager.createTenant:
tenant_ followed by the slug with dashes turned into underscores. -/
def schemaNameOfSlug (slug : String) : String :=
  ⟨"tenant_".data ++ slug.data.map underscoreChar⟩

/-- End-to-end derivation for an event with no slug: the webhook computes the
fallback slug and createTenant derives the schema name from it. -/
def schemaNameFromDisplayName (name : String) : String :=
  schemaNameOfSlug (deriveSlug name)

theorem mem_collapseDashes {c : Char} :
    ∀ l : List Char, c ∈ collapseDashes l → c ∈ l
  | [], h => h
  | [_], h => h
  | a :: b :: rest, h => by
    by_cases hab : a = '-' ∧ b = '-'
    · simp only [collapseDashes, if_pos hab] at h
      exact List.mem_cons_of_mem _ (mem_collapseDashes (b :: rest) h)
    · simp only [collapseDashes, if_neg hab, List.mem_cons] at h
      rcases h with h | h
      · exact h ▸ List.mem_cons_self _ _
      · exact List.mem_cons_of_mem _ (mem_collapseDashes (b :: rest) h)

theorem collapseDashes_cons_head :
    ∀ (x : Char) (xs : List Char), ∃ t, collapseDashes (x :: xs) = x :: t
  | _, [] => ⟨[], rfl⟩
  | x, y :: ys => by
    by_cases h : x = '-' ∧ y = '-'
    · obtain ⟨t, ht⟩ := collapseDashes_cons_head y ys
      obtain ⟨hx, hy⟩ := h
      subst hx; subst hy
      exact ⟨t, by simpa [collapseDashes] using ht⟩
    · exact ⟨collapseDashes (y :: ys), by simp only [collapseDashes, if_neg h]⟩

theorem collapseDashes_chain :
    ∀ l : List Char,
      List.Chain' (fun a b : Char => ¬(a = '-' ∧ b = '-')) (collapseDashes l)
  | [] => by simp [collapseDashes]
  | [_] => by simp [collapseDashes]
  | a :: b :: rest => by
    by_cases h : a = '-' ∧ b = '-'
    · simpa only [collapseDashes, if_pos h] using collapseDashes_chain (b :: rest)
    · obtain ⟨t, ht⟩ := collapseDashes_cons_head b rest
      have ih := collapseDashes_chain (b :: rest)
      rw [ht] at ih
      simp only [collapseDashes, if_neg h, ht, List.chain'_cons]
      exact ⟨h, ih⟩

theorem toDashChar_safe (c : Char) :
    toDashChar c = '-' ∨ ('a' ≤ toDashChar c ∧ toDashChar c ≤ 'z') ∨
      ('0' ≤ toDashChar c ∧ toDashChar c ≤ '9') := by
  unfold toDashChar
  by_cases h : ('a' ≤ c ∧ c ≤ 'z') ∨ ('0' ≤ c ∧ c ≤ '9')
  · rw [if_pos h]; exact Or.inr h
  · rw [if_neg h]; exact Or.inl rfl

theorem deriveSlug_chars (name : String) :
    ∀ c ∈ (deriveSlug name).data,
      c = '-' ∨ ('a' ≤ c ∧ c ≤ 'z') ∨ ('0' ≤ c ∧ c ≤ '9') := by
  intro c hc
  have hmem : c ∈ (name.data.map Char.toLower).map toDashChar :=
    mem_collapseDashes _ hc
  obtain ⟨d, _, hd⟩ := List.mem_map.mp hmem
  exact hd ▸ toDashChar_safe d

/-- C3, counterexample: the derivation does not trim leading or trailing
hyphens, so the display name given in the claim itself produces a schema
name with a double underscore right after the tenant_ prefix and a trailing
underscore — refuting "no leading or trailing underscore after the tenant_
prefix" and "single underscores". -/
theorem schemaName_untrimmed_counterexample :
    schemaNameFromDisplayName "  Multi   Space--Org!! " = "tenant__multi_space_org_" ∧
    (schemaNameFromDisplayName "  Multi   Space--Org!! ").data.getLast? = some '_' ∧
    (schemaNameFromDisplayName "  Multi   Space--Org!! ").data.get? 7 = some '_' := by
  refine ⟨by decide, by decide, by decide⟩

/-- C3 (amended): schema-name derivation from a display name is a pure
function (hence deterministic); when no slug is supplied the Provisioner
lowercases the display name and collapses non-alphanumeric runs to single
hyphens — but does not trim leading or trailing hyphens — so for every
input name the derived schema name tenant_<slug with dashes as underscores>
contains only lowercase letters, digits and underscores; the slug itself
never contains two adjacent hyphens and never contains an underscore, so in
the portion of the schema name derived from the slug every underscore comes
from exactly one hyphen and underscore runs there are single.  A leading or
trailing non-alphanumeric character in the display name does, however,
surface as an underscore directly after the tenant_ prefix or at the end of
the schema name. -/
theorem schemaName_derivation_identifier_safe (name : String) :
    (∀ c ∈ (schemaNameFromDisplayName name).data,
        c = '_' ∨ ('a' ≤ c ∧ c ≤ 'z') ∨ ('0' ≤ c ∧ c ≤ '9')) ∧
    List.Chain' (fun a b : Char => ¬(a = '-' ∧ b = '-')) (deriveSlug name).data ∧
    '_' ∉ (deriveSlug name).data := by
  refine ⟨?_, collapseDashes_chain _, ?_⟩
  · intro c hc
    have hdata : (schemaNameFromDisplayName name).data =
        "tenant_".data ++ (deriveSlug name).data.map underscoreChar := rfl
    rw [hdata, List.mem_append] at hc
    rcases hc with hc | hc
    · rw [show "tenant_".data = ['t', 'e', 'n', 'a', 'n', 't', '_'] from rfl] at hc
      fin_cases hc <;> decide
    · obtain ⟨d, hd, rfl⟩ := List.mem_map.mp hc
      rcases deriveSlug_chars name d hd with h | h | h
      · exact Or.inl (by simp [underscoreChar, h])
      · have hne : d ≠ '-' := by
          rintro rfl
          exact absurd h.1 (by decide)
        exact Or.inr (Or.inl (by simpa [underscoreChar, hne] using h))
      · have hne : d ≠ '-' := by
          rintro rfl
          exact absurd h.1 (by decide)
        exact Or.inr (Or.inr (by simpa [underscoreChar, hne] using h))
  · intro hc
    rcases deriveSlug_chars name '_' hc with h | h | h
    · exact absurd h (by decide)
    · exact absurd h.1 (by decide)
    · exact absurd h.2 (by decide)

/-! ## Database state, failure environment and the embedded operations -/

/-- One row of the shared tenant registry (table tenants in the public
schema): identity issued by the identity provider, display name, slug and
the derived schema name. -/
structure Tenant where
  id : String
  name : String
  slug : String
  schemaName : String
deriving DecidableEq, Repr

/-- The visible database state: registry rows, the set of physical schemas,
the per-schema migration-tracking tables (an entry is present exactly when
the _migrations table of that schema exists; its list is the recorded
filenames in insertion order) and the set of schemas whose target (users)
table exists — the fact queried by the fleet migrator's bootstrap check. -/
structure DB where
  registry : List Tenant
  schemas : List String
  tracker : List (String × List String)
  tablesOf : List String
deriving DecidableEq, Repr

/-- Errors raised by the embedded SQL statements. -/
inductive MErr where
  | insertFail : MErr
  | createSchemaFail : String → MErr
  | createTrackerFail : String → MErr
  | execFail : String → String → MErr
  | uniqueViolation : String → String → MErr
  | trackerMissing : String → MErr
  | dropSchemaFail : String → MErr
  | deleteRowFail : String → MErr
deriving DecidableEq, Repr

/-- The environment: the migration directory listing and the failure
oracles deciding which SQL statements fail (the subsystem itself never
retries, so a statement's outcome is a fixed fact of the run). -/
structure Env where
  files : List String
  failsAt : String → String → Bool
  createSchemaFails : String → Bool
  createTrackerFails : String → Bool
  insertTenantFails : Bool
  dropSchemaFails : String → Bool
  deleteRowFails : String → Bool

deriving instance DecidableEq for Except

/-- Result bundle of a stateful operation: the outcome (or the error that
was thrown), the database state it left behind, and the ordered log of
migration executions attempted, as (schema, filename) events. -/
structure MOut (α : Type) where
  res : Except MErr α
  db : DB
  log : List (String × String)
deriving Repr, DecidableEq

/-- The ordered migration file list, as computed by both applyTenantMigrations
and migrate-tenants.ts: readdirSync, keep .sql files, sort. -/
def sortedMigrationFiles (env : Env) : List String :=
  sortFiles (env.files.filter hasSqlSuffix)

/-- SELECT from tenants WHERE id = clerkOrgId LIMIT 1. -/
def getTenantByClerkOrgId (clerkOrgId : String) (db : DB) : Option Tenant :=
  db.registry.find? (fun t => t.id == clerkOrgId)

/-- SELECT from tenants WHERE slug = slug LIMIT 1. -/
def getTenantBySlug (slug : String) (db : DB) : Option Tenant :=
  db.registry.find? (fun t => t.slug == slug)

/-- SELECT all rows of tenants. -/
def getAllTenants (db : DB) : List Tenant := db.registry

/-- CREATE SCHEMA IF NOT EXISTS "s". -/
def createSchemaIfNotExists (env : Env) (s : String) (db : DB) : Except MErr DB :=
  if env.createSchemaFails s then .error (.createSchemaFail s)
  else if s ∈ db.schemas then .ok db
  else .ok { db with schemas := db.schemas ++ [s] }

/-- CREATE TABLE IF NOT EXISTS "s"."_migrations" (id serial primary key,
filename varchar unique not null, applied_at timestamp default now()). -/
def ensureTrackingTable (env : Env) (s : String) (db : DB) : Except MErr DB :=
  if env.createTrackerFails s then .error (.createTrackerFail s)
  else if (db.tracker.lookup s).isSome then .ok db
  else .ok { db with tracker := db.tracker ++ [(s, [])] }

/-- SELECT filename FROM "s"."_migrations" — the applied set read before the
loop (empty when the table does not exist yet, matching the state right
after ensureTrackingTable created it). -/
def appliedOf (s : String) (db : DB) : List String :=
  (db.tracker.lookup s).getD []

/-- INSERT INTO "s"."_migrations" (filename) VALUES (f): fails when the
table is missing or the unique constraint on filename is violated. -/
def recordApplied (s f : String) (db : DB) : Except MErr DB :=
  match db.tracker.lookup s with
  | none => .error (.trackerMissing s)
  | some cur =>
    if f ∈ cur then .error (.uniqueViolation s f)
    else .ok { db with
      tracker := db.tracker.map (fun p => if p.1 = s then (p.1, p.2 ++ [f]) else p) }

/-- The shared migration loop of applyTenantMigrations and
migrate-tenants.ts: for each file in order, skip it when the applied set
read before the loop contains it, otherwise execute it (logging the
attempt; a failure is rethrown immediately) and then record it applied. -/
def applyPending (env : Env) (s : String) (applied : List String) :
    List String → DB → List (String × String) → MOut Unit
  | [], db, log => ⟨.ok (), db, log⟩
  | f :: rest, db, log =>
    if f ∈ applied then applyPending env s applied rest db log
    else if env.failsAt s f then ⟨.error (.execFail s f), db, log ++ [(s, f)]⟩
    else
      match recordApplied s f db with
      | .error e => ⟨.error e, db, log ++ [(s, f)]⟩
      | .ok db1 => applyPending env s applied rest db1 (log ++ [(s, f)])

/-- TenantManager.applyTenantMigrations: list and sort the migration files,
ensure the tracking table, read the applied set once, then run the loop. -/
def applyTenantMigrations (env : Env) (s : String) (db : DB) : MOut Unit :=
  match ensureTrackingTable env s db with
  | .error e => ⟨.error e, db, []⟩
  | .ok db1 => applyPending env s (appliedOf s db1) (sortedMigrationFiles env) db1 []

/-- UPDATE tenants SET id = clerkOrgId, name = name WHERE slug = slug —
the slug-collision remap branch of createTenant. -/
def remapTenantRow (slug clerkOrgId name : String) (db : DB) : DB :=
  { db with registry :=
      db.registry.map (fun t =>
        if t.slug = slug then { t with id := clerkOrgId, name := name } else t) }

/-- The body of TenantManager.dropTenant before its catch: DROP SCHEMA IF
EXISTS "s" CASCADE (which also destroys the schema's tracking table and
target tables), then DELETE FROM tenants WHERE schemaName = s.  Returns the
error alongside the state actually reached, since a failure of the second
statement leaves the first one's effect in place. -/
def dropTenantAttempt (env : Env) (s : String) (db : DB) : Except MErr Unit × DB :=
  if env.dropSchemaFails s then (.error (.dropSchemaFail s), db)
  else
    let db1 : DB := { db with
      schemas := db.schemas.filter (fun x => x ≠ s),
      tracker := db.tracker.filter (fun p => p.1 ≠ s),
      tablesOf := db.tablesOf.filter (fun x => x ≠ s) }
    if env.deleteRowFails s then (.error (.deleteRowFail s), db1)
    else (.ok (), { db1 with registry := db1.registry.filter (fun t => t.schemaName ≠ s) })

/-- TenantManager.dropTenant: the attempt wrapped in a catch that only logs,
so the caller always gets a state back and never an error. -/
def dropTenant (env : Env) (s : String) (db : DB) : DB :=
  (dropTenantAttempt env s db).2

/-- Result value of createTenant: in the fresh-registration branch the
source returns an object without the existing field, which reads as falsy —
modelled as existing = false. -/
structure CreateResult where
  success : Bool
  schemaName : String
  existing : Bool
deriving DecidableEq, Repr

/-- The try block of TenantManager.createTenant: the existing-by-identity
branch (re-create schema, catch up migrations, return existing), the
existing-by-slug branch (remap the row's identity and name to the new
caller, then the same catch-up), and the fresh branch (insert the row,
create the schema, run the migrations). -/
def createTenantTry (env : Env) (clerkOrgId name slug : String) (db : DB) :
    MOut CreateResult :=
  let schemaName := schemaNameOfSlug slug
  match getTenantByClerkOrgId clerkOrgId db with
  | some t =>
    match createSchemaIfNotExists env t.schemaName db with
    | .error e => ⟨.error e, db, []⟩
    | .ok db1 =>
      let m := applyTenantMigrations env t.schemaName db1
      match m.res with
      | .error e => ⟨.error e, m.db, m.log⟩
      | .ok _ => ⟨.ok ⟨true, t.schemaName, true⟩, m.db, m.log⟩
  | none =>
    match getTenantBySlug slug db with
    | some t =>
      let db1 := remapTenantRow slug clerkOrgId name db
      match createSchemaIfNotExists env t.schemaName db1 with
      | .error e => ⟨.error e, db1, []⟩
      | .ok db2 =>
        let m := applyTenantMigrations env t.schemaName db2
        match m.res with
        | .error e => ⟨.error e, m.db, m.log⟩
        | .ok _ => ⟨.ok ⟨true, t.schemaName, true⟩, m.db, m.log⟩
    | none =>
      if env.insertTenantFails then ⟨.error .insertFail, db, []⟩
      else
        let db1 : DB := { db with
          registry := db.registry ++ [⟨clerkOrgId, name, slug, schemaName⟩] }
        match createSchemaIfNotExists env schemaName db1 with
        | .error e => ⟨.error e, db1, []⟩
        | .ok db2 =>
          let m := applyTenantMigrations env schemaName db2
          match m.res with
          | .error e => ⟨.error e, m.db, m.log⟩
          | .ok _ => ⟨.ok ⟨true, schemaName, false⟩, m.db, m.log⟩

/-- TenantManager.createTenant: the try block plus its catch, which
re-reads the tenant by identity in the current state and calls dropTenant
only when that read finds nothing, then rethrows the original error. -/
def createTenant (env : Env) (clerkOrgId name slug : String) (db : DB) :
    MOut CreateResult :=
  let r := createTenantTry env clerkOrgId name slug db
  match r.res with
  | .ok v => ⟨.ok v, r.db, r.log⟩
  | .error e =>
    match getTenantByClerkOrgId clerkOrgId r.db with
    | some _ => ⟨.error e, r.db, r.log⟩
    | none => ⟨.error e, dropTenant env (schemaNameOfSlug slug) r.db, r.log⟩

/-! ## Fleet migrator (src/scripts/migrate-tenants.ts) -/

/-- The filename migrate-tenants.ts hardcodes as the baseline when it finds
legacy tables without tracking records. -/
def baselineFile : String := "0000_steep_hedge_knight.sql"

/-- INSERT INTO "_migrations" (filename) VALUES (baseline) ON CONFLICT
(filename) DO NOTHING. -/
def markBaselineApplied (s : String) (db : DB) : DB :=
  { db with tracker :=
      db.tracker.map (fun p =>
        if p.1 = s then (p.1, if baselineFile ∈ p.2 then p.2 else p.2 ++ [baselineFile]) else p) }

/-- The per-tenant body of the fleet migrator's loop: create the schema if
needed, ensure the tracking table, check whether the target tables already
exist, read the applied set, mark the baseline applied when tables exist
with zero tracking records, then run the shared migration loop. -/
def fleetTenant (env : Env) (t : Tenant) (db : DB) : MOut Unit :=
  match createSchemaIfNotExists env t.schemaName db with
  | .error e => ⟨.error e, db, []⟩
  | .ok db1 =>
    match ensureTrackingTable env t.schemaName db1 with
    | .error e => ⟨.error e, db1, []⟩
    | .ok db2 =>
      let hasExistingTables := t.schemaName ∈ db2.tablesOf
      let applied := appliedOf t.schemaName db2
      if hasExistingTables ∧ applied = [] then
        applyPending env t.schemaName (applied ++ [baselineFile])
          (sortedMigrationFiles env) (markBaselineApplied t.schemaName db2) []
      else
        applyPending env t.schemaName applied (sortedMigrationFiles env) db2 []

/-- The tenant loop of migrateTenants.  There is no per-tenant catch: the
first error leaves the loop and reaches the script's single try/catch. -/
def fleetLoop (env : Env) : List Tenant → DB → List (String × String) → MOut Unit
  | [], db, log => ⟨.ok (), db, log⟩
  | t :: rest, db, log =>
    let r := fleetTenant env t db
    match r.res with
    | .error e => ⟨.error e, r.db, log ++ r.log⟩
    | .ok _ => fleetLoop env rest r.db (log ++ r.log)

/-- Outcome of one run of the migrate-tenants script: the process exit code
(1 when the catch block ran), final state and execution log. -/
structure FleetOut where
  exitCode : Nat
  db : DB
  log : List (String × String)
deriving Repr

/-- migrateTenants: snapshot the registry; an empty registry returns
early; otherwise run the loop, and any error is caught once, logged and
turned into process.exit(1). -/
def migrateTenants (env : Env) (db : DB) : FleetOut :=
  let ts := getAllTenants db
  if ts.isEmpty then ⟨0, db, []⟩
  else
    let r := fleetLoop env ts db []
    match r.res with
    | .error _ => ⟨1, r.db, r.log⟩
    | .ok _ => ⟨0, r.db, r.log⟩

/-! ## Connection manager (src/db/config/database.ts) -/

/-- A postgres connection pool as created by getTenantDb: its search_path
option and a creation identity. -/
structure Pool where
  searchPath : String
  uid : Nat
deriving DecidableEq, Repr

/-- The module state of database.ts: the tenantConnections map, a counter
giving fresh pool identities, and the log of every pool ever created. -/
structure ConnState where
  cache : List (String × Pool)
  nextUid : Nat
  created : List Pool
deriving DecidableEq, Repr

/-- State at module load: empty cache, nothing created. -/
def initConnState : ConnState := ⟨[], 0, []⟩

/-- getTenantDb(schemaName): if the cache has no entry for schemaName,
create a pool whose search_path is schemaName and cache it; then return the
handle backed by the cached pool.  The body performs no awaits, so in the
JavaScript execution model it runs atomically even under interleaved
callers. -/
def getTenantDb (schemaName : String) (st : ConnState) : Pool × ConnState :=
  match st.cache.lookup schemaName with
  | some p => (p, st)
  | none =>
    let p : Pool := ⟨schemaName, st.nextUid⟩
    (p, ⟨st.cache ++ [(schemaName, p)], st.nextUid + 1, st.created ++ [p]⟩)

/-- An arbitrary sequence of getTenantDb calls (any interleaving of callers
collapses to such a sequence, since each call body is atomic). -/
def runCalls : List String → ConnState → ConnState
  | [], st => st
  | s :: rest, st => runCalls rest (getTenantDb s st).2

/-! ## Helper lemmas on lookups and the pending computation -/

/-- The pending list: the files on disk, in order, minus the applied set
read before the loop. -/
def pendingOf (applied fs : List String) : List String :=
  fs.filter (fun f => decide (f ∉ applied))

theorem pendingOf_nil (applied : List String) : pendingOf applied [] = [] := rfl

theorem pendingOf_cons_mem {applied : List String} {f : String}
    (h : f ∈ applied) (fs : List String) :
    pendingOf applied (f :: fs) = pendingOf applied fs := by
  simp [pendingOf, List.filter_cons, h]

theorem pendingOf_cons_not_mem {applied : List String} {f : String}
    (h : f ∉ applied) (fs : List String) :
    pendingOf applied (f :: fs) = f :: pendingOf applied fs := by
  simp [pendingOf, List.filter_cons, h]

theorem mem_pendingOf {applied fs : List String} {f : String} :
    f ∈ pendingOf applied fs ↔ f ∈ fs ∧ f ∉ applied := by
  simp [pendingOf]

theorem lookup_cons_self {β : Type} (k : String) (v : β) (l : List (String × β)) :
    ((k, v) :: l).lookup k = some v := by
  simp [List.lookup]

theorem lookup_cons_ne {β : Type} {k k' : String} (h : k ≠ k') (v : β)
    (l : List (String × β)) : ((k', v) :: l).lookup k = l.lookup k := by
  have hbeq : (k == k') = false := by simpa using h
  simp [List.lookup, hbeq]

theorem map_adjust_cons_eq (s : String) (g : List String → List String)
    (v : List String) (tr : List (String × List String)) :
    (((s, v) :: tr).map (fun p => if p.1 = s then (p.1, g p.2) else p)) =
      (s, g v) :: tr.map (fun p => if p.1 = s then (p.1, g p.2) else p) := by
  simp

theorem map_adjust_cons_ne {s k : String} (hk : k ≠ s)
    (g : List String → List String) (v : List String)
    (tr : List (String × List String)) :
    (((k, v) :: tr).map (fun p => if p.1 = s then (p.1, g p.2) else p)) =
      (k, v) :: tr.map (fun p => if p.1 = s then (p.1, g p.2) else p) := by
  simp [hk]

theorem lookup_map_adjust (s : String) (g : List String → List String) :
    ∀ tr : List (String × List String),
      (tr.map (fun p => if p.1 = s then (p.1, g p.2) else p)).lookup s =
        (tr.lookup s).map g
  | [] => rfl
  | (k, v) :: tr => by
    by_cases hk : k = s
    · subst hk
      rw [map_adjust_cons_eq, lookup_cons_self, lookup_cons_self]
      rfl
    · rw [map_adjust_cons_ne hk, lookup_cons_ne (fun h => hk h.symm),
        lookup_cons_ne (fun h => hk h.symm), lookup_map_adjust s g tr]

theorem lookup_map_adjust_ne (s k : String) (g : List String → List String)
    (hk : k ≠ s) :
    ∀ tr : List (String × List String),
      (tr.map (fun p => if p.1 = s then (p.1, g p.2) else p)).lookup k =
        tr.lookup k
  | [] => rfl
  | (k', v) :: tr => by
    by_cases hk' : k' = s
    · rw [hk', map_adjust_cons_eq, lookup_cons_ne hk, lookup_cons_ne hk,
        lookup_map_adjust_ne s k g hk tr]
    · by_cases hkk : k = k'
      · subst hkk
        rw [map_adjust_cons_ne hk', lookup_cons_self, lookup_cons_self]
      · rw [map_adjust_cons_ne hk', lookup_cons_ne hkk, lookup_cons_ne hkk,
          lookup_map_adjust_ne s k g hk tr]

theorem lookup_append_none {β : Type} {k : String} :
    ∀ l1 l2 : List (String × β), l1.lookup k = none →
      (l1 ++ l2).lookup k = l2.lookup k
  | [], _, _ => rfl
  | (k', v) :: l1, l2, h => by
    by_cases hk : k = k'
    · subst hk
      rw [lookup_cons_self] at h
      exact absurd h (by simp)
    · rw [lookup_cons_ne hk] at h
      rw [List.cons_append, lookup_cons_ne hk]
      exact lookup_append_none l1 l2 h

theorem lookup_none_not_mem {β : Type} {k : String} :
    ∀ l : List (String × β), l.lookup k = none → k ∉ l.map Prod.fst
  | [], _ => by simp
  | (k', v) :: l, h => by
    by_cases hk : k = k'
    · subst hk
      rw [lookup_cons_self] at h
      exact absurd h (by simp)
    · rw [lookup_cons_ne hk] at h
      simp only [List.map_cons, List.mem_cons]
      rintro (h1 | h1)
      · exact hk h1
      · exact lookup_none_not_mem l h h1

/-! ## Lemmas on recordApplied and the shared migration loop -/

/-- The state recordApplied leaves behind on success: the tracking entry of
schema s extended with f. -/
def recordTracker (s f : String) (db : DB) : DB :=
  { db with tracker :=
      db.tracker.map (fun p => if p.1 = s then (p.1, p.2 ++ [f]) else p) }

theorem recordTracker_registry (s f : String) (db : DB) :
    (recordTracker s f db).registry = db.registry := rfl

theorem recordTracker_schemas (s f : String) (db : DB) :
    (recordTracker s f db).schemas = db.schemas := rfl

theorem recordTracker_tablesOf (s f : String) (db : DB) :
    (recordTracker s f db).tablesOf = db.tablesOf := rfl

theorem lookup_recordTracker (s f : String) (db : DB) :
    (recordTracker s f db).tracker.lookup s =
      (db.tracker.lookup s).map (fun v => v ++ [f]) :=
  lookup_map_adjust s (fun v => v ++ [f]) db.tracker

theorem lookup_recordTracker_ne (s f k : String) (hk : k ≠ s) (db : DB) :
    (recordTracker s f db).tracker.lookup k = db.tracker.lookup k :=
  lookup_map_adjust_ne s k (fun v => v ++ [f]) hk db.tracker

theorem recordApplied_ok {s f : String} {db : DB} {cur : List String}
    (hl : db.tracker.lookup s = some cur) (hf : f ∉ cur) :
    recordApplied s f db = .ok (recordTracker s f db) := by
  unfold recordApplied recordTracker
  rw [hl]
  simp [hf]

theorem recordApplied_ok_inv {s f : String} {db db' : DB}
    (h : recordApplied s f db = .ok db') :
    db' = recordTracker s f db ∧
    ∃ cur, db.tracker.lookup s = some cur ∧ f ∉ cur := by
  unfold recordApplied at h
  split at h
  · exact absurd h (by simp)
  · split at h
    · exact absurd h (by simp)
    · exact ⟨(Except.ok.inj h).symm, _, by assumption, by assumption⟩

theorem recordApplied_error_shape {s f : String} {db : DB} {e : MErr}
    (h : recordApplied s f db = .error e) :
    e = .trackerMissing s ∨ e = .uniqueViolation s f := by
  unfold recordApplied at h
  split at h
  · exact Or.inl (Except.error.inj h).symm
  · split at h
    · exact Or.inr (Except.error.inj h).symm
    · exact absurd h (by simp)

theorem applyPending_frame (env : Env) (s : String) (applied : List String) :
    ∀ (fs : List String) (db : DB) (log : List (String × String)),
      (applyPending env s applied fs db log).db.registry = db.registry ∧
      (applyPending env s applied fs db log).db.schemas = db.schemas ∧
      (applyPending env s applied fs db log).db.tablesOf = db.tablesOf ∧
      ∀ k, k ≠ s →
        (applyPending env s applied fs db log).db.tracker.lookup k =
          db.tracker.lookup k
  | [], db, log => ⟨rfl, rfl, rfl, fun _ _ => rfl⟩
  | f :: rest, db, log => by
    by_cases hmem : f ∈ applied
    · simpa only [applyPending, if_pos hmem] using
        applyPending_frame env s applied rest db log
    · by_cases hfail : env.failsAt s f = true
      · simp [applyPending, if_neg hmem, hfail]
      · rcases hrec : recordApplied s f db with e | db1
        · simp [applyPending, if_neg hmem, if_neg hfail, hrec]
        · obtain ⟨hdb1, _⟩ := recordApplied_ok_inv hrec
          subst hdb1
          have ih := applyPending_frame env s applied rest
            (recordTracker s f db) (log ++ [(s, f)])
          simp only [applyPending, if_neg hmem, if_neg hfail, hrec]
          exact ⟨ih.1.trans (recordTracker_registry s f db),
            ih.2.1.trans (recordTracker_schemas s f db),
            ih.2.2.1.trans (recordTracker_tablesOf s f db),
            fun k hk => (ih.2.2.2 k hk).trans (lookup_recordTracker_ne s f k hk db)⟩

theorem applyPending_ok_inv (env : Env) (s : String) (applied : List String) :
    ∀ (fs : List String) (db : DB) (log : List (String × String))
      (cur : List String),
      db.tracker.lookup s = some cur →
      (applyPending env s applied fs db log).res = .ok () →
      (applyPending env s applied fs db log).db.tracker.lookup s =
          some (cur ++ pendingOf applied fs) ∧
      (applyPending env s applied fs db log).log =
          log ++ (pendingOf applied fs).map (fun f => (s, f))
  | [], db, log, cur, hl, _ => by
    simp [applyPending, pendingOf, hl]
  | f :: rest, db, log, cur, hl, hok => by
    by_cases hmem : f ∈ applied
    · rw [pendingOf_cons_mem hmem]
      simp only [applyPending, if_pos hmem] at hok ⊢
      exact applyPending_ok_inv env s applied rest db log cur hl hok
    · by_cases hfail : env.failsAt s f = true
      · simp [applyPending, if_neg hmem, hfail] at hok
      · rcases hrec : recordApplied s f db with e | db1
        · simp [applyPending, if_neg hmem, if_neg hfail, hrec] at hok
        · obtain ⟨hdb1, cur', hcur', _⟩ := recordApplied_ok_inv hrec
          subst hdb1
          have hceq : cur' = cur := Option.some.inj (hcur'.symm.trans hl)
          have hl1 : (recordTracker s f db).tracker.lookup s = some (cur ++ [f]) := by
            rw [lookup_recordTracker, hl]
            rfl
          simp only [applyPending, if_neg hmem, if_neg hfail, hrec] at hok ⊢
          have ih := applyPending_ok_inv env s applied rest (recordTracker s f db)
            (log ++ [(s, f)]) (cur ++ [f]) hl1 hok
          rw [pendingOf_cons_not_mem hmem]
          refine ⟨?_, ?_⟩
          · rw [ih.1]
            simp [List.append_assoc]
          · rw [ih.2]
            simp [List.append_assoc]

theorem applyPending_all_applied (env : Env) (s : String) (applied : List String) :
    ∀ (fs : List String) (db : DB) (log : List (String × String)),
      (∀ f ∈ fs, f ∈ applied) →
      applyPending env s applied fs db log = ⟨.ok (), db, log⟩
  | [], _, _, _ => rfl
  | f :: rest, db, log, h => by
    have hmem : f ∈ applied := h f (List.mem_cons_self f rest)
    simp only [applyPending, if_pos hmem]
    exact applyPending_all_applied env s applied rest db log
      (fun g hg => h g (List.mem_cons_of_mem f hg))

theorem applyPending_ok_of_noFail (env : Env) (s : String) (applied : List String) :
    ∀ (fs : List String) (db : DB) (log : List (String × String))
      (cur : List String),
      db.tracker.lookup s = some cur →
      (pendingOf applied fs).Nodup →
      (∀ f ∈ pendingOf applied fs, f ∉ cur) →
      (∀ f ∈ pendingOf applied fs, env.failsAt s f = false) →
      (applyPending env s applied fs db log).res = .ok () ∧
      (applyPending env s applied fs db log).db.tracker.lookup s =
          some (cur ++ pendingOf applied fs) ∧
      (applyPending env s applied fs db log).log =
          log ++ (pendingOf applied fs).map (fun f => (s, f))
  | [], db, log, cur, hl, _, _, _ => by
    simp [applyPending, pendingOf, hl]
  | f :: rest, db, log, cur, hl, hnd, hcur, hnf => by
    by_cases hmem : f ∈ applied
    · rw [pendingOf_cons_mem hmem] at hnd hcur hnf ⊢
      simp only [applyPending, if_pos hmem]
      exact applyPending_ok_of_noFail env s applied rest db log cur hl hnd hcur hnf
    · rw [pendingOf_cons_not_mem hmem] at hnd hcur hnf ⊢
      have hfmem : f ∈ f :: pendingOf applied rest := List.mem_cons_self f _
      have hfail : env.failsAt s f = false := hnf f hfmem
      have hfcur : f ∉ cur := hcur f hfmem
      have hrec := recordApplied_ok hl hfcur
      have hl1 : (recordTracker s f db).tracker.lookup s = some (cur ++ [f]) := by
        rw [lookup_recordTracker, hl]
        rfl
      have hfnotpending : f ∉ pendingOf applied rest := (List.nodup_cons.mp hnd).1
      have ih := applyPending_ok_of_noFail env s applied rest
        (recordTracker s f db) (log ++ [(s, f)]) (cur ++ [f]) hl1
        (List.nodup_cons.mp hnd).2
        (by
          intro g hg
          simp only [List.mem_append, List.mem_singleton]
          rintro (hgc | hgf)
          · exact hcur g (List.mem_cons_of_mem f hg) hgc
          · exact hfnotpending (hgf ▸ hg))
        (fun g hg => hnf g (List.mem_cons_of_mem f hg))
      have hfail2 : ¬ env.failsAt s f = true := by simp [hfail]
      simp only [applyPending, if_neg hmem, if_neg hfail2, hrec]
      refine ⟨ih.1, ?_, ?_⟩
      · rw [ih.2.1]
        simp [List.append_assoc]
      · rw [ih.2.2]
        simp [List.append_assoc]

theorem applyPending_stops (env : Env) (s : String) (applied : List String) :
    ∀ (fs : List String) (db : DB) (log : List (String × String))
      (cur pre suf : List String) (f : String),
      db.tracker.lookup s = some cur →
      pendingOf applied fs = pre ++ f :: suf →
      (pendingOf applied fs).Nodup →
      (∀ g ∈ pendingOf applied fs, g ∉ cur) →
      (∀ g ∈ pre, env.failsAt s g = false) →
      env.failsAt s f = true →
      (applyPending env s applied fs db log).res = .error (.execFail s f) ∧
      (applyPending env s applied fs db log).log =
          log ++ (pre ++ [f]).map (fun g => (s, g)) ∧
      (applyPending env s applied fs db log).db.tracker.lookup s =
          some (cur ++ pre)
  | [], db, log, cur, pre, suf, f, hl, hsplit, _, _, _, _ => by
    rw [pendingOf_nil] at hsplit
    exact absurd hsplit.symm (by simp)
  | g0 :: rest, db, log, cur, pre, suf, f, hl, hsplit, hnd, hcur, hpre, hf => by
    by_cases hmem : g0 ∈ applied
    · rw [pendingOf_cons_mem hmem] at hsplit hnd hcur
      simp only [applyPending, if_pos hmem]
      exact applyPending_stops env s applied rest db log cur pre suf f
        hl hsplit hnd hcur hpre hf
    · rw [pendingOf_cons_not_mem hmem] at hsplit hnd hcur
      rcases pre with _ | ⟨p0, pre'⟩
      · rw [List.nil_append] at hsplit
        obtain ⟨hg0, _⟩ := List.cons.inj hsplit
        subst hg0
        simp only [applyPending, if_neg hmem, hf, if_true]
        simp [hl]
      · rw [List.cons_append] at hsplit
        obtain ⟨hg0, htail⟩ := List.cons.inj hsplit
        subst hg0
        have hfail : env.failsAt s g0 = false :=
          hpre g0 (List.mem_cons_self g0 pre')
        have hg0cur : g0 ∉ cur := hcur g0 (List.mem_cons_self g0 _)
        have hrec := recordApplied_ok hl hg0cur
        have hl1 : (recordTracker s g0 db).tracker.lookup s = some (cur ++ [g0]) := by
          rw [lookup_recordTracker, hl]
          rfl
        have hg0notrest : g0 ∉ pendingOf applied rest := (List.nodup_cons.mp hnd).1
        have ih := applyPending_stops env s applied rest
          (recordTracker s g0 db) (log ++ [(s, g0)]) (cur ++ [g0]) pre' suf f
          hl1 htail (List.nodup_cons.mp hnd).2
          (by
            intro g hg
            simp only [List.mem_append, List.mem_singleton]
            rintro (hgc | hgf)
            · exact hcur g (List.mem_cons_of_mem g0 hg) hgc
            · exact hg0notrest (hgf ▸ hg))
          (fun g hg => hpre g (List.mem_cons_of_mem g0 hg)) hf
        have hfail2 : ¬ env.failsAt s g0 = true := by simp [hfail]
        simp only [applyPending, if_neg hmem, if_neg hfail2, hrec]
        refine ⟨ih.1, ?_, ?_⟩
        · rw [ih.2.1]
          simp [List.append_assoc]
        · rw [ih.2.2]
          simp [List.append_assoc]

theorem applyPending_error_shape (env : Env) (s : String) (applied : List String) :
    ∀ (fs : List String) (db : DB) (log : List (String × String)) (e : MErr),
      (applyPending env s applied fs db log).res = .error e →
      (∃ f, e = .execFail s f) ∨ (∃ f, e = .uniqueViolation s f) ∨
        e = .trackerMissing s
  | [], _, _, _, h => by simp [applyPending] at h
  | f :: rest, db, log, e, h => by
    by_cases hmem : f ∈ applied
    · simp only [applyPending, if_pos hmem] at h
      exact applyPending_error_shape env s applied rest db log e h
    · by_cases hfail : env.failsAt s f = true
      · simp only [applyPending, if_neg hmem, hfail, if_true] at h
        exact Or.inl ⟨f, (Except.error.inj h).symm⟩
      · rcases hrec : recordApplied s f db with e' | db1
        · simp only [applyPending, if_neg hmem, if_neg hfail, hrec] at h
          have he : e' = e := Except.error.inj h
          subst he
          rcases recordApplied_error_shape hrec with h1 | h1
          · exact Or.inr (Or.inr h1)
          · exact Or.inr (Or.inl ⟨f, h1⟩)
        · simp only [applyPending, if_neg hmem, if_neg hfail, hrec] at h
          exact applyPending_error_shape env s applied rest db1 (log ++ [(s, f)]) e h

/-! ## The filename order, and lemmas on the schema and tracker DDL -/

theorem charListLe_total : ∀ a b : List Char,
    charListLe a b = true ∨ charListLe b a = true
  | [], _ => Or.inl rfl
  | _ :: _, [] => Or.inr rfl
  | x :: xs, y :: ys => by
    rcases lt_trichotomy x y with h | h | h
    · exact Or.inl (by simp [charListLe, h])
    · subst h
      rcases charListLe_total xs ys with h2 | h2
      · exact Or.inl (by simp [charListLe, h2])
      · exact Or.inr (by simp [charListLe, h2])
    · exact Or.inr (by simp [charListLe, h])

theorem charListLe_trans : ∀ a b c : List Char,
    charListLe a b = true → charListLe b c = true → charListLe a c = true
  | [], _, _, _, _ => rfl
  | _ :: _, [], _, h1, _ => by simp [charListLe] at h1
  | _ :: _, _ :: _, [], _, h2 => by simp [charListLe] at h2
  | x :: xs, y :: ys, z :: zs, h1, h2 => by
    rcases lt_trichotomy x y with hxy | hxy | hxy
    · rcases lt_trichotomy y z with hyz | hyz | hyz
      · simp [charListLe, lt_trans hxy hyz]
      · subst hyz
        simp [charListLe, hxy]
      · have hny : ¬ y < z := asymm hyz
        simp [charListLe, hny, hyz] at h2
    · subst hxy
      simp only [charListLe, lt_irrefl, if_false] at h1
      rcases lt_trichotomy x z with hxz | hxz | hxz
      · simp [charListLe, hxz]
      · subst hxz
        simp only [charListLe, lt_irrefl, if_false] at h2 ⊢
        exact charListLe_trans xs ys zs h1 h2
      · have hnx : ¬ x < z := asymm hxz
        simp [charListLe, hnx, hxz] at h2
    · have hnx : ¬ x < y := asymm hxy
      simp [charListLe, hnx, hxy] at h1

instance : IsTotal String (fun a b => fileLe a b = true) :=
  ⟨fun a b => charListLe_total a.data b.data⟩

instance : IsTrans String (fun a b => fileLe a b = true) :=
  ⟨fun a b c => charListLe_trans a.data b.data c.data⟩

theorem sortedMigrationFiles_sorted (env : Env) :
    List.Sorted (fun a b => fileLe a b = true) (sortedMigrationFiles env) :=
  List.sorted_insertionSort _ _

theorem sortedMigrationFiles_nodup (env : Env) (h : env.files.Nodup) :
    (sortedMigrationFiles env).Nodup :=
  ((List.perm_insertionSort (fun a b => fileLe a b = true)
    (env.files.filter hasSqlSuffix)).nodup_iff).mpr (h.filter _)

theorem lookup_append_some {β : Type} {k : String} {v : β} :
    ∀ l1 l2 : List (String × β), l1.lookup k = some v →
      (l1 ++ l2).lookup k = some v
  | [], _, h => by simp [List.lookup] at h
  | (k', v') :: l1, l2, h => by
    by_cases hk : k = k'
    · subst hk
      rw [lookup_cons_self] at h
      rw [List.cons_append, lookup_cons_self]
      exact h
    · rw [lookup_cons_ne hk] at h
      rw [List.cons_append, lookup_cons_ne hk]
      exact lookup_append_some l1 l2 h

theorem createSchemaIfNotExists_ok_inv {env : Env} {s : String} {db db' : DB}
    (h : createSchemaIfNotExists env s db = .ok db') :
    env.createSchemaFails s = false ∧
    db'.registry = db.registry ∧ db'.tracker = db.tracker ∧
    db'.tablesOf = db.tablesOf ∧ s ∈ db'.schemas ∧
    (∀ x ∈ db.schemas, x ∈ db'.schemas) := by
  unfold createSchemaIfNotExists at h
  split at h
  · exact absurd h (by simp)
  · next hflag =>
    have hflag' : env.createSchemaFails s = false := by simpa using hflag
    split at h
    · next hmem =>
      have hdb := Except.ok.inj h
      subst hdb
      exact ⟨hflag', rfl, rfl, rfl, hmem, fun _ hx => hx⟩
    · next hmem =>
      have hdb := Except.ok.inj h
      subst hdb
      exact ⟨hflag', rfl, rfl, rfl, by simp, fun x hx => by simp [hx]⟩

theorem createSchemaIfNotExists_mem {env : Env} {s : String} {db : DB}
    (hf : env.createSchemaFails s = false) (hs : s ∈ db.schemas) :
    createSchemaIfNotExists env s db = .ok db := by
  unfold createSchemaIfNotExists
  rw [hf]
  simp [hs]

theorem createSchemaIfNotExists_ok {env : Env} {s : String} {db : DB}
    (hf : env.createSchemaFails s = false) :
    ∃ db', createSchemaIfNotExists env s db = .ok db' := by
  unfold createSchemaIfNotExists
  rw [hf]
  by_cases hs : s ∈ db.schemas
  · exact ⟨db, by simp [hs]⟩
  · exact ⟨{ db with schemas := db.schemas ++ [s] }, by simp [hs]⟩

theorem createSchemaIfNotExists_error_inv {env : Env} {s : String} {db : DB}
    {e : MErr} (h : createSchemaIfNotExists env s db = .error e) :
    e = .createSchemaFail s ∧ env.createSchemaFails s = true := by
  unfold createSchemaIfNotExists at h
  split at h
  · next hflag => exact ⟨(Except.error.inj h).symm, hflag⟩
  · split at h <;> exact absurd h (by simp)

theorem ensureTrackingTable_ok_inv {env : Env} {s : String} {db db' : DB}
    (h : ensureTrackingTable env s db = .ok db') :
    env.createTrackerFails s = false ∧
    db'.registry = db.registry ∧ db'.schemas = db.schemas ∧
    db'.tablesOf = db.tablesOf ∧
    db'.tracker.lookup s = some (appliedOf s db) ∧
    appliedOf s db' = appliedOf s db ∧
    (∀ k, k ≠ s → db'.tracker.lookup k = db.tracker.lookup k) := by
  unfold ensureTrackingTable at h
  split at h
  · exact absurd h (by simp)
  · next hflag =>
    have hflag' : env.createTrackerFails s = false := by simpa using hflag
    split at h
    · next hsome =>
      have hdb := Except.ok.inj h
      subst hdb
      obtain ⟨v, hv⟩ := Option.isSome_iff_exists.mp hsome
      refine ⟨hflag', rfl, rfl, rfl, ?_, rfl, fun _ _ => rfl⟩
      rw [hv]
      simp [appliedOf, hv]
    · next hnone =>
      have hnone' : db.tracker.lookup s = none :=
        Option.not_isSome_iff_eq_none.mp hnone
      have hdb := Except.ok.inj h
      subst hdb
      have hself : (db.tracker ++ [(s, [])]).lookup s = some [] := by
        rw [lookup_append_none db.tracker [(s, ([] : List String))] hnone']
        exact lookup_cons_self s [] []
      refine ⟨hflag', rfl, rfl, rfl, ?_, ?_, ?_⟩
      · show (db.tracker ++ [(s, [])]).lookup s = some (appliedOf s db)
        rw [hself]
        simp [appliedOf, hnone']
      · show ((db.tracker ++ [(s, [])]).lookup s).getD [] = appliedOf s db
        rw [hself]
        simp [appliedOf, hnone']
      · intro k hk
        show (db.tracker ++ [(s, [])]).lookup k = db.tracker.lookup k
        rcases hkl : db.tracker.lookup k with _ | v
        · rw [lookup_append_none db.tracker [(s, ([] : List String))] hkl]
          exact lookup_cons_ne hk ([] : List String) []
        · exact lookup_append_some db.tracker [(s, ([] : List String))] hkl

theorem ensureTrackingTable_error_inv {env : Env} {s : String} {db : DB}
    {e : MErr} (h : ensureTrackingTable env s db = .error e) :
    e = .createTrackerFail s ∧ env.createTrackerFails s = true := by
  unfold ensureTrackingTable at h
  split at h
  · next hflag => exact ⟨(Except.error.inj h).symm, hflag⟩
  · split at h <;> exact absurd h (by simp)

/-! ## Lemmas on applyTenantMigrations -/

theorem applyTenantMigrations_frame (env : Env) (s : String) (db : DB) :
    (applyTenantMigrations env s db).db.registry = db.registry ∧
    (applyTenantMigrations env s db).db.schemas = db.schemas ∧
    (applyTenantMigrations env s db).db.tablesOf = db.tablesOf ∧
    ∀ k, k ≠ s →
      (applyTenantMigrations env s db).db.tracker.lookup k =
        db.tracker.lookup k := by
  unfold applyTenantMigrations
  rcases hens : ensureTrackingTable env s db with e | db1
  · simp [hens]
  · obtain ⟨_, h1, h2, h3, _, _, h6⟩ := ensureTrackingTable_ok_inv hens
    have hap := applyPending_frame env s (appliedOf s db1)
      (sortedMigrationFiles env) db1 []
    simp only [hens]
    exact ⟨hap.1.trans h1, hap.2.1.trans h2, hap.2.2.1.trans h3,
      fun k hk => (hap.2.2.2 k hk).trans (h6 k hk)⟩

theorem applyTenantMigrations_ok_inv {env : Env} {s : String} {db : DB}
    (h : (applyTenantMigrations env s db).res = .ok ()) :
    env.createTrackerFails s = false ∧
    (applyTenantMigrations env s db).db.tracker.lookup s =
      some (appliedOf s db ++ pendingOf (appliedOf s db) (sortedMigrationFiles env)) ∧
    (applyTenantMigrations env s db).log =
      (pendingOf (appliedOf s db) (sortedMigrationFiles env)).map (fun f => (s, f)) := by
  unfold applyTenantMigrations at h ⊢
  rcases hens : ensureTrackingTable env s db with e | db1
  · simp only [hens] at h
    simp at h
  · obtain ⟨hflag, _, _, _, hlook, happ, _⟩ := ensureTrackingTable_ok_inv hens
    simp only [hens] at h ⊢
    rw [happ] at h ⊢
    have hres := applyPending_ok_inv env s (appliedOf s db)
      (sortedMigrationFiles env) db1 [] (appliedOf s db) hlook h
    exact ⟨hflag, hres.1, by simpa using hres.2⟩

theorem applyTenantMigrations_ok_of_noFail {env : Env} {s : String} {db : DB}
    (hct : env.createTrackerFails s = false)
    (hnd : (pendingOf (appliedOf s db) (sortedMigrationFiles env)).Nodup)
    (hnf : ∀ f ∈ pendingOf (appliedOf s db) (sortedMigrationFiles env),
        env.failsAt s f = false) :
    (applyTenantMigrations env s db).res = .ok () ∧
    (applyTenantMigrations env s db).db.tracker.lookup s =
      some (appliedOf s db ++ pendingOf (appliedOf s db) (sortedMigrationFiles env)) ∧
    (applyTenantMigrations env s db).log =
      (pendingOf (appliedOf s db) (sortedMigrationFiles env)).map (fun f => (s, f)) := by
  unfold applyTenantMigrations
  rcases hens : ensureTrackingTable env s db with e | db1
  · obtain ⟨_, hflag⟩ := ensureTrackingTable_error_inv hens
    rw [hct] at hflag
    exact absurd hflag (by simp)
  · obtain ⟨_, _, _, _, hlook, happ, _⟩ := ensureTrackingTable_ok_inv hens
    simp only [hens]
    rw [happ]
    have hres := applyPending_ok_of_noFail env s (appliedOf s db)
      (sortedMigrationFiles env) db1 [] (appliedOf s db) hlook hnd
      (fun f hf => (mem_pendingOf.mp hf).2) hnf
    exact ⟨hres.1, hres.2.1, by simpa using hres.2.2⟩

theorem applyTenantMigrations_noop {env : Env} {s : String} {db : DB}
    (hct : env.createTrackerFails s = false)
    (hsome : (db.tracker.lookup s).isSome)
    (hall : ∀ f ∈ sortedMigrationFiles env, f ∈ appliedOf s db) :
    applyTenantMigrations env s db = ⟨.ok (), db, []⟩ := by
  unfold applyTenantMigrations
  have hens : ensureTrackingTable env s db = .ok db := by
    unfold ensureTrackingTable
    rw [hct]
    simp [hsome]
  simp only [hens]
  exact applyPending_all_applied env s (appliedOf s db) (sortedMigrationFiles env)
    db [] hall

theorem applyTenantMigrations_error_shape {env : Env} {s : String} {db : DB}
    {e : MErr} (h : (applyTenantMigrations env s db).res = .error e) :
    e = .createTrackerFail s ∨ (∃ f, e = .execFail s f) ∨
      (∃ f, e = .uniqueViolation s f) ∨ e = .trackerMissing s := by
  unfold applyTenantMigrations at h
  rcases hens : ensureTrackingTable env s db with e' | db1
  · rw [hens] at h
    have he : e' = e := Except.error.inj h
    subst he
    exact Or.inl (ensureTrackingTable_error_inv hens).1
  · rw [hens] at h
    exact Or.inr (applyPending_error_shape env s (appliedOf s db1)
      (sortedMigrationFiles env) db1 [] e h)

/-! ## Lemmas on createTenant -/

theorem find?_append_of_none {α : Type} {p : α → Bool} :
    ∀ l1 l2 : List α, l1.find? p = none → (l1 ++ l2).find? p = l2.find? p
  | [], _, _ => rfl
  | a :: l1, l2, h => by
    by_cases hp : p a
    · rw [List.find?_cons_of_pos _ hp] at h
      exact absurd h (by simp)
    · rw [List.find?_cons_of_neg _ (by simpa using hp)] at h
      rw [List.cons_append, List.find?_cons_of_neg _ (by simpa using hp)]
      exact find?_append_of_none l1 l2 h

theorem find_id_remap (slug clerkOrgId name : String) :
    ∀ l : List Tenant,
      l.find? (fun t => t.id == clerkOrgId) = none →
      ∀ t : Tenant, l.find? (fun t => t.slug == slug) = some t →
      (l.map (fun u =>
          if u.slug = slug then { u with id := clerkOrgId, name := name } else u)).find?
          (fun u => u.id == clerkOrgId) =
        some { t with id := clerkOrgId, name := name }
  | [], _, t, h2 => by simp at h2
  | u :: l, h1, t, h2 => by
    have h1' := List.find?_eq_none.mp h1
    have hu : ¬ (u.id == clerkOrgId) = true := h1' u (List.mem_cons_self u l)
    have hl : l.find? (fun t => t.id == clerkOrgId) = none :=
      List.find?_eq_none.mpr (fun x hx => h1' x (List.mem_cons_of_mem u hx))
    by_cases hs : u.slug = slug
    · rw [List.find?_cons_of_pos _ (by simpa using hs)] at h2
      have ht : u = t := Option.some.inj h2
      subst ht
      rw [List.map_cons, if_pos hs, List.find?_cons_of_pos _ (by simp)]
    · rw [List.find?_cons_of_neg _ (by simpa using hs)] at h2
      rw [List.map_cons, if_neg hs,
        @List.find?_cons_of_neg _ (fun v => v.id == clerkOrgId) u _ hu]
      exact find_id_remap slug clerkOrgId name l hl t h2

theorem remapTenantRow_tracker (slug clerkOrgId name : String) (db : DB) :
    (remapTenantRow slug clerkOrgId name db).tracker = db.tracker := rfl

theorem createTenantTry_ok_inv {env : Env} {clerkOrgId name slug : String}
    {db : DB} {r : CreateResult}
    (h : (createTenantTry env clerkOrgId name slug db).res = .ok r) :
    env.createSchemaFails r.schemaName = false ∧
    env.createTrackerFails r.schemaName = false ∧
    r.schemaName ∈ (createTenantTry env clerkOrgId name slug db).db.schemas ∧
    (∃ t, getTenantByClerkOrgId clerkOrgId
        (createTenantTry env clerkOrgId name slug db).db = some t ∧
      t.schemaName = r.schemaName) ∧
    ∃ cur, (createTenantTry env clerkOrgId name slug db).db.tracker.lookup
        r.schemaName = some cur ∧
      ∀ f ∈ sortedMigrationFiles env, f ∈ cur := by
  unfold createTenantTry at h ⊢
  rcases hid : getTenantByClerkOrgId clerkOrgId db with _ | t
  all_goals simp only [hid] at h ⊢
  case some =>
    rcases hcs : createSchemaIfNotExists env t.schemaName db with e | db1
    all_goals simp only [hcs] at h ⊢
    · simp at h
    rcases hm : (applyTenantMigrations env t.schemaName db1).res with e | u
    all_goals simp only [hm] at h ⊢
    · simp at h
    have hr : (⟨true, t.schemaName, true⟩ : CreateResult) = r := by
      simpa using h
    subst hr
    obtain ⟨hcs1, hreg1, htr1, _, hmem1, hup1⟩ := createSchemaIfNotExists_ok_inv hcs
    cases u
    obtain ⟨hct1, hlook1, _⟩ := applyTenantMigrations_ok_inv hm
    obtain ⟨hfr, hfs, _, hfl⟩ := applyTenantMigrations_frame env t.schemaName db1
    refine ⟨hcs1, hct1, ?_, ?_, ?_⟩
    · rw [hfs]
      exact hmem1
    · refine ⟨t, ?_, rfl⟩
      show ((applyTenantMigrations env t.schemaName db1).db.registry.find?
        (fun u => u.id == clerkOrgId)) = some t
      rw [hfr, hreg1]
      exact hid
    · refine ⟨_, hlook1, ?_⟩
      intro f hf
      by_cases hfa : f ∈ appliedOf t.schemaName db1
      · simp [hfa]
      · simp [mem_pendingOf, hf, hfa]
  case none =>
    rcases hslug : getTenantBySlug slug db with _ | t
    all_goals simp only [hslug] at h ⊢
    case some =>
      rcases hcs : createSchemaIfNotExists env t.schemaName
          (remapTenantRow slug clerkOrgId name db) with e | db1
      all_goals simp only [hcs] at h ⊢
      · simp at h
      rcases hm : (applyTenantMigrations env t.schemaName db1).res with e | u
      all_goals simp only [hm] at h ⊢
      · simp at h
      have hr : (⟨true, t.schemaName, true⟩ : CreateResult) = r := by
        simpa using h
      subst hr
      obtain ⟨hcs1, hreg1, htr1, _, hmem1, hup1⟩ := createSchemaIfNotExists_ok_inv hcs
      cases u
      obtain ⟨hct1, hlook1, _⟩ := applyTenantMigrations_ok_inv hm
      obtain ⟨hfr, hfs, _, hfl⟩ := applyTenantMigrations_frame env t.schemaName db1
      refine ⟨hcs1, hct1, ?_, ?_, ?_⟩
      · rw [hfs]
        exact hmem1
      · refine ⟨{ t with id := clerkOrgId, name := name }, ?_, rfl⟩
        show ((applyTenantMigrations env t.schemaName db1).db.registry.find?
          (fun u => u.id == clerkOrgId)) = _
        rw [hfr, hreg1]
        exact find_id_remap slug clerkOrgId name db.registry hid t hslug
      · refine ⟨_, hlook1, ?_⟩
        intro f hf
        by_cases hfa : f ∈ appliedOf t.schemaName db1
        · simp [hfa]
        · simp [mem_pendingOf, hf, hfa]
    case none =>
      by_cases hins : env.insertTenantFails
      · simp only [if_pos hins] at h
        simp at h
      simp only [if_neg hins] at h ⊢
      rcases hcs : createSchemaIfNotExists env (schemaNameOfSlug slug)
          { db with registry :=
              db.registry ++ [⟨clerkOrgId, name, slug, schemaNameOfSlug slug⟩] }
          with e | db1
      all_goals simp only [hcs] at h ⊢
      · simp at h
      rcases hm : (applyTenantMigrations env (schemaNameOfSlug slug) db1).res with e | u
      all_goals simp only [hm] at h ⊢
      · simp at h
      have hr : (⟨true, schemaNameOfSlug slug, false⟩ : CreateResult) = r := by
        simpa using h
      subst hr
      obtain ⟨hcs1, hreg1, htr1, _, hmem1, hup1⟩ := createSchemaIfNotExists_ok_inv hcs
      cases u
      obtain ⟨hct1, hlook1, _⟩ :=
        applyTenantMigrations_ok_inv hm
      obtain ⟨hfr, hfs, _, hfl⟩ :=
        applyTenantMigrations_frame env (schemaNameOfSlug slug) db1
      refine ⟨hcs1, hct1, ?_, ?_, ?_⟩
      · rw [hfs]
        exact hmem1
      · refine ⟨⟨clerkOrgId, name, slug, schemaNameOfSlug slug⟩, ?_, rfl⟩
        show ((applyTenantMigrations env (schemaNameOfSlug slug) db1).db.registry.find?
          (fun u => u.id == clerkOrgId)) = _
        rw [hfr, hreg1]
        show ((db.registry ++ [(⟨clerkOrgId, name, slug, schemaNameOfSlug slug⟩ : Tenant)]).find?
          (fun u => u.id == clerkOrgId)) = _
        rw [find?_append_of_none db.registry _ hid]
        simp [List.find?]
      · refine ⟨_, hlook1, ?_⟩
        intro f hf
        by_cases hfa : f ∈ appliedOf (schemaNameOfSlug slug) db1
        · simp [hfa]
        · simp [mem_pendingOf, hf, hfa]

theorem createTenant_of_try_ok {env : Env} {clerkOrgId name slug : String}
    {db : DB} {r : CreateResult}
    (h : (createTenantTry env clerkOrgId name slug db).res = .ok r) :
    createTenant env clerkOrgId name slug db =
      createTenantTry env clerkOrgId name slug db := by
  unfold createTenant
  simp only [h]
  rw [← h]

theorem createTenant_res_ok {env : Env} {clerkOrgId name slug : String}
    {db : DB} {r : CreateResult}
    (h : (createTenant env clerkOrgId name slug db).res = .ok r) :
    (createTenantTry env clerkOrgId name slug db).res = .ok r := by
  unfold createTenant at h
  rcases htry : (createTenantTry env clerkOrgId name slug db).res with e | v
  · simp only [htry] at h
    rcases hfind : getTenantByClerkOrgId clerkOrgId
        (createTenantTry env clerkOrgId name slug db).db with _ | t
    all_goals simp only [hfind] at h
    all_goals simp at h
  · simp only [htry] at h
    have : v = r := by simpa using h
    subst this
    rfl

/-! ## Claim theorems on the provisioner -/

/-- C6: after a successful provisioning or catch-up run for a tenant, the
set of recorded applied filenames equals the full ordered migration-file
list at that time (given that the previously recorded filenames are all
still on disk and recorded once each, as the subsystem itself guarantees);
and immediately running the same migration pass again executes zero
migration files and inserts zero tracker rows — the run is the exact no-op
result, so no file is ever executed twice and the per-schema filename
uniqueness holds. -/
theorem migrations_applied_exactly_once (env : Env) (s : String) (db : DB)
    (hfiles : env.files.Nodup)
    (hsub : ∀ f ∈ appliedOf s db, f ∈ sortedMigrationFiles env)
    (hnd0 : (appliedOf s db).Nodup)
    (hok : (applyTenantMigrations env s db).res = .ok ()) :
    (∀ f, f ∈ appliedOf s (applyTenantMigrations env s db).db ↔
        f ∈ sortedMigrationFiles env) ∧
    (appliedOf s (applyTenantMigrations env s db).db).Nodup ∧
    applyTenantMigrations env s (applyTenantMigrations env s db).db =
      ⟨.ok (), (applyTenantMigrations env s db).db, []⟩ := by
  obtain ⟨hct, hlook, _⟩ := applyTenantMigrations_ok_inv hok
  have happ1 : appliedOf s (applyTenantMigrations env s db).db =
      appliedOf s db ++ pendingOf (appliedOf s db) (sortedMigrationFiles env) := by
    unfold appliedOf
    rw [hlook]
    rfl
  have hiff : ∀ f, f ∈ appliedOf s (applyTenantMigrations env s db).db ↔
      f ∈ sortedMigrationFiles env := by
    intro f
    rw [happ1]
    constructor
    · intro hf
      rcases List.mem_append.mp hf with hf | hf
      · exact hsub f hf
      · exact (mem_pendingOf.mp hf).1
    · intro hf
      by_cases hfa : f ∈ appliedOf s db
      · exact List.mem_append.mpr (Or.inl hfa)
      · exact List.mem_append.mpr (Or.inr (mem_pendingOf.mpr ⟨hf, hfa⟩))
  refine ⟨hiff, ?_, ?_⟩
  · rw [happ1]
    refine List.Nodup.append hnd0 ((sortedMigrationFiles_nodup env hfiles).filter _) ?_
    intro a ha hb
    exact (mem_pendingOf.mp hb).2 ha
  · apply applyTenantMigrations_noop hct
    · rw [hlook]
      rfl
    · intro f hf
      exact (hiff f).mpr hf

def envC6 : Env :=
  ⟨["0000_first.sql", "0001_second.sql"], fun _ _ => false,
   fun _ => false, fun _ => false, false, fun _ => false, fun _ => false⟩

def dbC6 : DB := ⟨[], ["tenant_w6"], [], []⟩

theorem migrations_applied_exactly_once_witness :
    applyTenantMigrations envC6 "tenant_w6"
        (applyTenantMigrations envC6 "tenant_w6" dbC6).db =
      ⟨.ok (), (applyTenantMigrations envC6 "tenant_w6" dbC6).db, []⟩ :=
  (migrations_applied_exactly_once envC6 "tenant_w6" dbC6 (by decide)
    (fun f hf => absurd hf (List.not_mem_nil f))
    List.nodup_nil (by decide)).2.2

/-- C7: within one tenant's migration run, pending files are processed in
strict ascending lexicographic filename order; when the file f at position
|pre| of the pending list fails, the run propagates exactly that execution
error, the attempt log covers precisely the earlier pending files and f in
order (no later file is attempted), the failing file is not recorded, and
the files recorded earlier in the same run stay recorded (no rollback). -/
theorem migration_run_stops_at_first_failure (env : Env) (s : String) (db : DB)
    (pre suf : List String) (f : String)
    (hct : env.createTrackerFails s = false)
    (hsplit : pendingOf (appliedOf s db) (sortedMigrationFiles env) = pre ++ f :: suf)
    (hnd : (pendingOf (appliedOf s db) (sortedMigrationFiles env)).Nodup)
    (hpre : ∀ g ∈ pre, env.failsAt s g = false)
    (hf : env.failsAt s f = true) :
    (applyTenantMigrations env s db).res = .error (.execFail s f) ∧
    (applyTenantMigrations env s db).log = (pre ++ [f]).map (fun g => (s, g)) ∧
    appliedOf s (applyTenantMigrations env s db).db = appliedOf s db ++ pre ∧
    List.Sorted (fun a b => fileLe a b = true) (pre ++ f :: suf) := by
  unfold applyTenantMigrations
  rcases hens : ensureTrackingTable env s db with e | db1
  · obtain ⟨_, hflag⟩ := ensureTrackingTable_error_inv hens
    rw [hct] at hflag
    exact absurd hflag (by simp)
  obtain ⟨_, _, _, _, hlook, happ, _⟩ := ensureTrackingTable_ok_inv hens
  simp only [hens]
  rw [happ]
  have hstop := applyPending_stops env s (appliedOf s db) (sortedMigrationFiles env)
    db1 [] (appliedOf s db) pre suf f hlook hsplit hnd
    (fun g hg => (mem_pendingOf.mp hg).2) hpre hf
  refine ⟨hstop.1, by simpa using hstop.2.1, ?_, ?_⟩
  · show ((applyPending env s (appliedOf s db) (sortedMigrationFiles env)
        db1 []).db.tracker.lookup s).getD [] = appliedOf s db ++ pre
    rw [hstop.2.2]
    rfl
  · have hsorted : List.Sorted (fun a b => fileLe a b = true)
        (pendingOf (appliedOf s db) (sortedMigrationFiles env)) :=
      (sortedMigrationFiles_sorted env).filter _
    rw [hsplit] at hsorted
    exact hsorted

def envC7 : Env :=
  ⟨["0000_a.sql", "0001_b.sql", "0002_c.sql"],
   fun s f => s == "tenant_w7" && f == "0001_b.sql",
   fun _ => false, fun _ => false, false, fun _ => false, fun _ => false⟩

def dbC7 : DB := ⟨[], ["tenant_w7"], [], []⟩

theorem migration_run_stops_at_first_failure_witness :
    (applyTenantMigrations envC7 "tenant_w7" dbC7).res =
      .error (.execFail "tenant_w7" "0001_b.sql") :=
  (migration_run_stops_at_first_failure envC7 "tenant_w7" dbC7
    ["0000_a.sql"] ["0002_c.sql"] "0001_b.sql" (by decide) (by decide) (by decide)
    (by
      intro g hg
      simp only [List.mem_singleton] at hg
      subst hg
      decide)
    (by decide)).1

/-- C4: registration is idempotent in the tenant identity: whenever a
createTenant call succeeds with result r, calling createTenant again with
the same identity returns success with existing = true and the same schema
name, leaves the database state exactly unchanged (in particular the
registry row count does not increase) and executes no migration file. -/
theorem createTenant_idempotent (env : Env) (clerkOrgId name slug : String)
    (db : DB) (r : CreateResult)
    (h : (createTenant env clerkOrgId name slug db).res = .ok r) :
    createTenant env clerkOrgId name slug
        (createTenant env clerkOrgId name slug db).db =
      ⟨.ok ⟨true, r.schemaName, true⟩,
        (createTenant env clerkOrgId name slug db).db, []⟩ := by
  have htry := createTenant_res_ok h
  have heq := createTenant_of_try_ok htry
  rw [heq]
  obtain ⟨hcs, hct, hmem, ⟨t, hfind, hts⟩, cur, hlook, hsup⟩ :=
    createTenantTry_ok_inv htry
  revert hfind hmem hlook
  generalize (createTenantTry env clerkOrgId name slug db).db = X
  intro hmem hfind hlook
  have hcs2 : createSchemaIfNotExists env t.schemaName X = .ok X := by
    apply createSchemaIfNotExists_mem
    · rw [hts]; exact hcs
    · rw [hts]; exact hmem
  have happly : applyTenantMigrations env t.schemaName X = ⟨.ok (), X, []⟩ := by
    apply applyTenantMigrations_noop
    · rw [hts]; exact hct
    · rw [hts, hlook]; rfl
    · intro f hf
      show f ∈ appliedOf t.schemaName X
      unfold appliedOf
      rw [hts, hlook]
      exact hsup f hf
  have htry2 : createTenantTry env clerkOrgId name slug X =
      ⟨.ok ⟨true, t.schemaName, true⟩, X, []⟩ := by
    unfold createTenantTry
    simp only [hfind, hcs2, happly]
  have hfinal : createTenant env clerkOrgId name slug X =
      ⟨.ok ⟨true, t.schemaName, true⟩, X, []⟩ := by
    unfold createTenant
    simp only [htry2]
  rw [hfinal, ← hts]

def envC4 : Env :=
  ⟨["0000_base.sql"], fun _ _ => false,
   fun _ => false, fun _ => false, false, fun _ => false, fun _ => false⟩

def dbC4 : DB := ⟨[], [], [], []⟩

theorem createTenant_idempotent_witness :
    createTenant envC4 "org_w4" "W4" "w4"
        (createTenant envC4 "org_w4" "W4" "w4" dbC4).db =
      ⟨.ok ⟨true, "tenant_w4", true⟩,
        (createTenant envC4 "org_w4" "W4" "w4" dbC4).db, []⟩ :=
  createTenant_idempotent envC4 "org_w4" "W4" "w4" dbC4
    ⟨true, "tenant_w4", false⟩ (by decide)

/-- C5: when createTenant is called with a new identity but a slug already
owned by a different registered tenant, the call does not fail (provided
the schema and tracker DDL and the catch-up migrations on that tenant's
schema themselves succeed): the existing row's identity and name are
remapped to the new caller (last-writer-wins), every other registry row is
untouched and the row count is unchanged, and the existing schema name is
returned with existing = true. -/
theorem createTenant_slug_collision_remaps (env : Env)
    (clerkOrgId name slug : String) (db : DB) (t : Tenant)
    (hid : getTenantByClerkOrgId clerkOrgId db = none)
    (hslug : getTenantBySlug slug db = some t)
    (hcs : env.createSchemaFails t.schemaName = false)
    (hct : env.createTrackerFails t.schemaName = false)
    (hfiles : env.files.Nodup)
    (hnf : ∀ f, env.failsAt t.schemaName f = false) :
    (createTenant env clerkOrgId name slug db).res = .ok ⟨true, t.schemaName, true⟩ ∧
    (createTenant env clerkOrgId name slug db).db.registry =
      db.registry.map (fun u =>
        if u.slug = slug then { u with id := clerkOrgId, name := name } else u) := by
  obtain ⟨db1, hdb1⟩ := @createSchemaIfNotExists_ok env t.schemaName
    (remapTenantRow slug clerkOrgId name db) hcs
  obtain ⟨_, hreg1, htr1, _, _, _⟩ := createSchemaIfNotExists_ok_inv hdb1
  obtain ⟨hres, _, _⟩ := @applyTenantMigrations_ok_of_noFail env t.schemaName db1
    hct ((sortedMigrationFiles_nodup env hfiles).filter _)
    (fun f _ => hnf f)
  have htry : (createTenantTry env clerkOrgId name slug db).res =
      .ok ⟨true, t.schemaName, true⟩ ∧
      (createTenantTry env clerkOrgId name slug db).db =
        (applyTenantMigrations env t.schemaName db1).db := by
    unfold createTenantTry
    simp only [hid, hslug, hdb1]
    rcases hm : (applyTenantMigrations env t.schemaName db1).res with e | u
    · rw [hm] at hres
      exact absurd hres (by simp)
    · cases u
      simp [hm]
  have heq := createTenant_of_try_ok htry.1
  rw [heq]
  refine ⟨htry.1, ?_⟩
  rw [htry.2]
  have hfr := (applyTenantMigrations_frame env t.schemaName db1).1
  rw [hfr, hreg1]
  rfl

def envC5 : Env :=
  ⟨["0000_base.sql"], fun _ _ => false,
   fun _ => false, fun _ => false, false, fun _ => false, fun _ => false⟩

def dbC5 : DB :=
  ⟨[⟨"org_old5", "Old5", "w5", "tenant_w5"⟩], ["tenant_w5"], [], []⟩

theorem createTenant_slug_collision_remaps_witness :
    (createTenant envC5 "org_new5" "New5" "w5" dbC5).res =
      .ok ⟨true, "tenant_w5", true⟩ :=
  (createTenant_slug_collision_remaps envC5 "org_new5" "New5" "w5" dbC5
    ⟨"org_old5", "Old5", "w5", "tenant_w5"⟩ (by decide) (by decide) (by decide)
    (by decide) (by decide) (fun _ => rfl)).1

theorem not_cleanup_of_try_shapes {e : MErr} {s : String}
    (h : e = .createTrackerFail s ∨ (∃ f, e = .execFail s f) ∨
      (∃ f, e = .uniqueViolation s f) ∨ e = .trackerMissing s) :
    (∀ x, e ≠ .dropSchemaFail x) ∧ (∀ x, e ≠ .deleteRowFail x) := by
  rcases h with h | ⟨f, h⟩ | ⟨f, h⟩ | h <;> subst h <;>
    exact ⟨fun x => by simp, fun x => by simp⟩

theorem createTenantTry_error_not_cleanup {env : Env}
    {clerkOrgId name slug : String} {db : DB} {e : MErr}
    (h : (createTenantTry env clerkOrgId name slug db).res = .error e) :
    (∀ x, e ≠ .dropSchemaFail x) ∧ (∀ x, e ≠ .deleteRowFail x) := by
  unfold createTenantTry at h
  rcases hid : getTenantByClerkOrgId clerkOrgId db with _ | t
  all_goals simp only [hid] at h
  case some =>
    rcases hcs : createSchemaIfNotExists env t.schemaName db with e' | db1
    all_goals simp only [hcs] at h
    · have he : e' = e := by simpa using h
      subst he
      rw [(createSchemaIfNotExists_error_inv hcs).1]
      exact ⟨fun x => by simp, fun x => by simp⟩
    · rcases hm : (applyTenantMigrations env t.schemaName db1).res with e' | u
      all_goals simp only [hm] at h
      · have he : e' = e := by simpa using h
        subst he
        exact not_cleanup_of_try_shapes (applyTenantMigrations_error_shape hm)
      · simp at h
  case none =>
    rcases hslug : getTenantBySlug slug db with _ | t
    all_goals simp only [hslug] at h
    case some =>
      rcases hcs : createSchemaIfNotExists env t.schemaName
          (remapTenantRow slug clerkOrgId name db) with e' | db1
      all_goals simp only [hcs] at h
      · have he : e' = e := by simpa using h
        subst he
        rw [(createSchemaIfNotExists_error_inv hcs).1]
        exact ⟨fun x => by simp, fun x => by simp⟩
      · rcases hm : (applyTenantMigrations env t.schemaName db1).res with e' | u
        all_goals simp only [hm] at h
        · have he : e' = e := by simpa using h
          subst he
          exact not_cleanup_of_try_shapes (applyTenantMigrations_error_shape hm)
        · simp at h
    case none =>
      by_cases hins : env.insertTenantFails
      · simp only [if_pos hins] at h
        have he : MErr.insertFail = e := by simpa using h
        subst he
        exact ⟨fun x => by simp, fun x => by simp⟩
      · simp only [if_neg hins] at h
        rcases hcs : createSchemaIfNotExists env (schemaNameOfSlug slug)
            { db with registry :=
                db.registry ++ [⟨clerkOrgId, name, slug, schemaNameOfSlug slug⟩] }
            with e' | db1
        all_goals simp only [hcs] at h
        · have he : e' = e := by simpa using h
          subst he
          rw [(createSchemaIfNotExists_error_inv hcs).1]
          exact ⟨fun x => by simp, fun x => by simp⟩
        · rcases hm : (applyTenantMigrations env (schemaNameOfSlug slug) db1).res
              with e' | u
          all_goals simp only [hm] at h
          · have he : e' = e := by simpa using h
            subst he
            exact not_cleanup_of_try_shapes (applyTenantMigrations_error_shape hm)
          · simp at h

/-- C10: when createTenant throws, the error is always the original
provisioning error of the try block and never a cleanup error — dropTenant
swallows any failure of its own schema drop or registry delete (it returns
a plain state, discarding the error of dropTenantAttempt), so no
dropSchemaFail or deleteRowFail ever escapes createTenant; consequently the
cleanup itself is not guaranteed to have succeeded when createTenant
throws. -/
theorem createTenant_rethrows_original_error (env : Env)
    (clerkOrgId name slug : String) (db : DB) (e : MErr)
    (h : (createTenant env clerkOrgId name slug db).res = .error e) :
    (createTenantTry env clerkOrgId name slug db).res = .error e ∧
    (∀ x, e ≠ .dropSchemaFail x) ∧ (∀ x, e ≠ .deleteRowFail x) := by
  have htry : (createTenantTry env clerkOrgId name slug db).res = .error e := by
    unfold createTenant at h
    rcases htry : (createTenantTry env clerkOrgId name slug db).res with e' | v
    · simp only [htry] at h
      rcases hfind : getTenantByClerkOrgId clerkOrgId
          (createTenantTry env clerkOrgId name slug db).db with _ | t
      all_goals simp only [hfind] at h
      all_goals
        have he : e' = e := by simpa using h
      all_goals subst he
      all_goals rfl
    · simp only [htry] at h
      simp at h
  exact ⟨htry, createTenantTry_error_not_cleanup htry⟩

def envC10 : Env :=
  ⟨["0000_base.sql"], fun _ _ => false,
   fun _ => false, fun _ => false, true, fun _ => true, fun _ => true⟩

def dbC10 : DB := ⟨[], [], [], []⟩

theorem createTenant_rethrows_original_error_witness :
    (createTenantTry envC10 "org_w10" "W10" "w10" dbC10).res =
      .error .insertFail :=
  (createTenant_rethrows_original_error envC10 "org_w10" "W10" "w10" dbC10
    .insertFail (by decide)).1

/-! ## Claim theorems on rollback and the fleet migrator -/

def envC1 : Env :=
  ⟨["0000_a.sql", "0001_b.sql", "0002_c.sql", "0003_d.sql", "0004_e.sql"],
   fun s f => s == "tenant_acme" && f == "0002_c.sql",
   fun _ => false, fun _ => false, false, fun _ => false, fun _ => false⟩

def dbC1 : DB := ⟨[], [], [], []⟩

/-- C1: evaluation of createTenant at the failing input of the claim — a
brand-new tenant whose third migration file (of five) fails.  The catch
block re-reads the tenant by identity after the insert already succeeded,
finds the freshly inserted row and therefore skips dropTenant: the call
rethrows the execution error, yet the registry row, the physical schema and
the two recorded migrations all remain.  This contradicts the claimed (and
specified, and intended by the code's own comment) zero-trace rollback. -/
theorem createTenant_midfailure_keeps_row_and_schema :
    (createTenant envC1 "org_1" "Acme" "acme" dbC1).res =
        .error (.execFail "tenant_acme" "0002_c.sql") ∧
    getTenantByClerkOrgId "org_1"
        (createTenant envC1 "org_1" "Acme" "acme" dbC1).db =
      some ⟨"org_1", "Acme", "acme", "tenant_acme"⟩ ∧
    "tenant_acme" ∈ (createTenant envC1 "org_1" "Acme" "acme" dbC1).db.schemas ∧
    appliedOf "tenant_acme" (createTenant envC1 "org_1" "Acme" "acme" dbC1).db =
      ["0000_a.sql", "0001_b.sql"] := by
  refine ⟨by decide, by decide, by decide, by decide⟩

theorem fleetLoop_append (env : Env) :
    ∀ (l1 l2 : List Tenant) (db : DB) (log : List (String × String))
      (db1 : DB) (log1 : List (String × String)),
      fleetLoop env l1 db log = ⟨.ok (), db1, log1⟩ →
      fleetLoop env (l1 ++ l2) db log = fleetLoop env l2 db1 log1
  | [], l2, db, log, db1, log1, h => by
    injection h with h1 h2 h3
    subst h2
    subst h3
    rw [List.nil_append]
  | t :: l1, l2, db, log, db1, log1, h => by
    rcases hr : (fleetTenant env t db).res with e | u
    · simp only [fleetLoop, hr] at h
      exact absurd h (by simp)
    · simp only [fleetLoop, hr] at h ⊢
      exact fleetLoop_append env l1 l2 (fleetTenant env t db).db
        (log ++ (fleetTenant env t db).log) db1 log1 h

def tA : Tenant := ⟨"org_a", "Alpha", "alpha", "tenant_alpha"⟩

def tB : Tenant := ⟨"org_b", "Beta", "beta", "tenant_beta"⟩

def envC2 : Env :=
  ⟨["0000_init.sql"], fun s _ => s == "tenant_alpha",
   fun _ => false, fun _ => false, false, fun _ => false, fun _ => false⟩

def dbC2 : DB := ⟨[tA, tB], ["tenant_alpha", "tenant_beta"], [], []⟩

/-- C2, counterexample: with two registered tenants where the first
tenant's only migration fails, the fleet run exits with failure but never
attempts the second tenant — no execution event for tenant_beta is logged
and its tracking table is never even created, refuting "it still attempts
every tenant K+1..N". -/
theorem fleet_counterexample_skips_later_tenants :
    (migrateTenants envC2 dbC2).exitCode = 1 ∧
    ((migrateTenants envC2 dbC2).log.filter (fun ev => ev.1 == "tenant_beta")) = [] ∧
    (migrateTenants envC2 dbC2).db.tracker.lookup "tenant_beta" = none := by
  refine ⟨by decide, by decide, by decide⟩

/-- C2 (amended): when the Fleet Migrator runs over the registered tenants
and the tenant after the successfully processed ones fails, the run aborts
at that tenant: the overall run reports failure (exit code 1), but the
remaining tenants are not attempted — the run's log and final state are
exactly those left by the successful ones plus the failing tenant, with no
activity for any later tenant. -/
theorem fleet_migration_aborts_at_failed_tenant (env : Env) (db : DB)
    (done : List Tenant) (t : Tenant) (rest : List Tenant)
    (db1 : DB) (log1 : List (String × String)) (e : MErr)
    (hreg : db.registry = done ++ t :: rest)
    (hdone : fleetLoop env done db [] = ⟨.ok (), db1, log1⟩)
    (hfail : (fleetTenant env t db1).res = .error e) :
    (migrateTenants env db).exitCode = 1 ∧
    (migrateTenants env db).log = log1 ++ (fleetTenant env t db1).log ∧
    (migrateTenants env db).db = (fleetTenant env t db1).db := by
  have hloop : fleetLoop env db.registry db [] =
      ⟨.error e, (fleetTenant env t db1).db, log1 ++ (fleetTenant env t db1).log⟩ := by
    rw [hreg, fleetLoop_append env done (t :: rest) db [] db1 log1 hdone]
    simp only [fleetLoop, hfail]
  have hne : db.registry.isEmpty = false := by
    rw [hreg]
    cases done <;> rfl
  simp [migrateTenants, getAllTenants, hne, hloop]

theorem fleet_migration_aborts_witness :
    (migrateTenants envC2 dbC2).exitCode = 1 :=
  (fleet_migration_aborts_at_failed_tenant envC2 dbC2 [] tA [tB] dbC2 []
    (.execFail "tenant_alpha" "0000_init.sql") (by decide) rfl (by decide)).1

theorem lookup_markBaseline (s : String) (db : DB) :
    (markBaselineApplied s db).tracker.lookup s =
      (db.tracker.lookup s).map
        (fun cur => if baselineFile ∈ cur then cur else cur ++ [baselineFile]) :=
  lookup_map_adjust s
    (fun cur => if baselineFile ∈ cur then cur else cur ++ [baselineFile]) db.tracker

/-- C8: during a fleet-migration pass over a tenant whose schema already
contains the target tables but whose tracking table has zero records, the
baseline migration filename is recorded as applied without that file being
executed (no execution event for it is logged), so the baseline file is
skipped in the same pass while every other (later) migration file is still
applied and recorded normally and in order. -/
theorem fleet_bootstrap_marks_baseline (env : Env) (t : Tenant) (db : DB)
    (hcs : env.createSchemaFails t.schemaName = false)
    (hct : env.createTrackerFails t.schemaName = false)
    (hfiles : env.files.Nodup)
    (hnf : ∀ f, env.failsAt t.schemaName f = false)
    (htab : t.schemaName ∈ db.tablesOf)
    (hempty : appliedOf t.schemaName db = []) :
    (fleetTenant env t db).res = .ok () ∧
    (t.schemaName, baselineFile) ∉ (fleetTenant env t db).log ∧
    (fleetTenant env t db).log =
      (pendingOf [baselineFile] (sortedMigrationFiles env)).map
        (fun g => (t.schemaName, g)) ∧
    appliedOf t.schemaName (fleetTenant env t db).db =
      baselineFile :: pendingOf [baselineFile] (sortedMigrationFiles env) := by
  obtain ⟨db1, hdb1⟩ := @createSchemaIfNotExists_ok env t.schemaName db hcs
  obtain ⟨_, _, htr1, htab1, _, _⟩ := createSchemaIfNotExists_ok_inv hdb1
  have happ1 : appliedOf t.schemaName db1 = appliedOf t.schemaName db := by
    unfold appliedOf
    rw [htr1]
  rcases hens : ensureTrackingTable env t.schemaName db1 with e | db2
  · obtain ⟨_, hflag⟩ := ensureTrackingTable_error_inv hens
    rw [hct] at hflag
    exact absurd hflag (by simp)
  obtain ⟨_, _, _, htab2, hlook2, happ2, _⟩ := ensureTrackingTable_ok_inv hens
  have hcond : t.schemaName ∈ db2.tablesOf ∧ appliedOf t.schemaName db2 = [] := by
    constructor
    · rw [htab2, htab1]
      exact htab
    · rw [happ2, happ1, hempty]
  have hlook3 : (markBaselineApplied t.schemaName db2).tracker.lookup t.schemaName =
      some [baselineFile] := by
    rw [lookup_markBaseline, hlook2, happ1, hempty]
    rfl
  have hrun := applyPending_ok_of_noFail env t.schemaName [baselineFile]
    (sortedMigrationFiles env) (markBaselineApplied t.schemaName db2) []
    [baselineFile] hlook3
    ((sortedMigrationFiles_nodup env hfiles).filter _)
    (fun f hf => (mem_pendingOf.mp hf).2)
    (fun f _ => hnf f)
  have hstep : fleetTenant env t db =
      applyPending env t.schemaName (appliedOf t.schemaName db2 ++ [baselineFile])
        (sortedMigrationFiles env) (markBaselineApplied t.schemaName db2) [] := by
    unfold fleetTenant
    simp only [hdb1, hens, if_pos hcond]
  rw [hcond.2] at hstep
  rw [List.nil_append] at hstep
  rw [hstep]
  refine ⟨hrun.1, ?_, by simpa using hrun.2.2, ?_⟩
  · intro hmem
    rw [hrun.2.2] at hmem
    simp only [List.mem_append, List.mem_map] at hmem
    rcases hmem with hmem | ⟨g, hg, hgeq⟩
    · simp at hmem
    · have hgb : g = baselineFile := by
        have := congrArg Prod.snd hgeq
        simpa using this
      subst hgb
      exact (mem_pendingOf.mp hg).2 (List.mem_singleton.mpr rfl)
  · show ((applyPending env t.schemaName [baselineFile] (sortedMigrationFiles env)
        (markBaselineApplied t.schemaName db2) []).db.tracker.lookup
          t.schemaName).getD [] = _
    rw [hrun.2.1]
    rfl

def envC8 : Env :=
  ⟨["0000_steep_hedge_knight.sql", "0001_add_projects.sql"],
   fun _ _ => false, fun _ => false, fun _ => false, false,
   fun _ => false, fun _ => false⟩

def tC8 : Tenant := ⟨"org_w8", "W8", "w8", "tenant_w8"⟩

def dbC8 : DB := ⟨[tC8], ["tenant_w8"], [], ["tenant_w8"]⟩

theorem fleet_bootstrap_marks_baseline_witness :
    (fleetTenant envC8 tC8 dbC8).res = .ok () ∧
    ("tenant_w8", baselineFile) ∉ (fleetTenant envC8 tC8 dbC8).log := by
  have h := fleet_bootstrap_marks_baseline envC8 tC8 dbC8 (by decide) (by decide)
    (by decide) (fun _ => rfl) (by decide) (by decide)
  exact ⟨h.1, h.2.1⟩

/-! ## Claim theorem on the connection manager -/

/-- Well-formedness of the connection cache state: duplicate-free keys,
every cached pool scoped to its key, no two created pools for the same
schema, and every created pool still cached. -/
def connWF (st : ConnState) : Prop :=
  (st.cache.map Prod.fst).Nodup ∧
  (∀ s p, (s, p) ∈ st.cache → p.searchPath = s) ∧
  (st.created.map Pool.searchPath).Nodup ∧
  (∀ p ∈ st.created, p.searchPath ∈ st.cache.map Prod.fst)

theorem connWF_init : connWF initConnState := by
  refine ⟨List.nodup_nil, ?_, List.nodup_nil, ?_⟩ <;> simp [initConnState]

theorem connWF_getTenantDb (s : String) (st : ConnState) (h : connWF st) :
    connWF (getTenantDb s st).2 := by
  obtain ⟨h1, h2, h3, h4⟩ := h
  unfold getTenantDb
  rcases hl : st.cache.lookup s with _ | p
  · have hnot : s ∉ st.cache.map Prod.fst := lookup_none_not_mem st.cache hl
    refine ⟨?_, ?_, ?_, ?_⟩
    · show ((st.cache ++ [(s, (⟨s, st.nextUid⟩ : Pool))]).map Prod.fst).Nodup
      rw [List.map_append]
      refine List.nodup_append.mpr ⟨h1, by simp, ?_⟩
      intro a ha
      simp only [List.map_cons, List.map_nil, List.mem_singleton]
      intro has
      exact hnot (has ▸ ha)
    · intro s' p' hp'
      show p'.searchPath = s'
      rcases List.mem_append.mp hp' with hp' | hp'
      · exact h2 s' p' hp'
      · have := List.mem_singleton.mp hp'
        rw [Prod.mk.injEq] at this
        rw [this.2, this.1]
    · show ((st.created ++ [(⟨s, st.nextUid⟩ : Pool)]).map Pool.searchPath).Nodup
      rw [List.map_append]
      refine List.nodup_append.mpr ⟨h3, by simp, ?_⟩
      intro a ha
      simp only [List.map_cons, List.map_nil, List.mem_singleton]
      intro has
      subst has
      obtain ⟨q, hq, hqa⟩ := List.mem_map.mp ha
      exact hnot (hqa ▸ h4 q hq)
    · intro p' hp'
      show p'.searchPath ∈ (st.cache ++ [(s, (⟨s, st.nextUid⟩ : Pool))]).map Prod.fst
      rw [List.map_append, List.mem_append]
      rcases List.mem_append.mp hp' with hp' | hp'
      · exact Or.inl (h4 p' hp')
      · have := List.mem_singleton.mp hp'
        subst this
        exact Or.inr (by simp)
  · exact ⟨h1, h2, h3, h4⟩

theorem connWF_runCalls : ∀ (calls : List String) (st : ConnState),
    connWF st → connWF (runCalls calls st)
  | [], _, h => h
  | s :: rest, st, h =>
    connWF_runCalls rest (getTenantDb s st).2 (connWF_getTenantDb s st h)

theorem filter_path_le_one {l : List Pool}
    (h : (l.map Pool.searchPath).Nodup) (s : String) :
    (l.filter (fun p => p.searchPath == s)).length ≤ 1 := by
  induction l with
  | nil => simp
  | cons p l ih =>
    simp only [List.map_cons, List.nodup_cons] at h
    by_cases hp : p.searchPath = s
    · have hnone : l.filter (fun q => q.searchPath == s) = [] := by
        rw [List.filter_eq_nil_iff]
        intro q hq
        simp only [beq_iff_eq]
        intro hqs
        exact h.1 (by
          rw [hp, ← hqs]
          exact List.mem_map_of_mem Pool.searchPath hq)
      simp [List.filter_cons, hp, hnone]
    · simp only [List.filter_cons]
      have hbeq : (p.searchPath == s) = false := by simpa using hp
      rw [hbeq]
      simpa using ih h.2

/-- C9: the Connection Manager's per-schema cache holds at most one
connection pool per schema name at all times: after any sequence of
getTenantDb calls (each call body performs no awaits, so in the JavaScript
run-to-completion model even interleaved callers execute it atomically and
collapse to such a sequence), the cache keys are duplicate-free, every
cached pool's default search path is its schema name, at most one pool was
ever created for any schema, a call whose schema is cached returns the
cached pool without changing anything, and a call whose schema is not yet
cached creates exactly one pool whose search path is that schema, caches
it, and returns that cached instance. -/
theorem connection_cache_single_pool (calls : List String) :
    ((runCalls calls initConnState).cache.map Prod.fst).Nodup ∧
    (∀ s p, (s, p) ∈ (runCalls calls initConnState).cache → p.searchPath = s) ∧
    (∀ s, ((runCalls calls initConnState).created.filter
        (fun p => p.searchPath == s)).length ≤ 1) ∧
    (∀ s p, (runCalls calls initConnState).cache.lookup s = some p →
      getTenantDb s (runCalls calls initConnState) =
        (p, runCalls calls initConnState)) ∧
    (∀ s, (runCalls calls initConnState).cache.lookup s = none →
      (getTenantDb s (runCalls calls initConnState)).1.searchPath = s ∧
      (getTenantDb s (runCalls calls initConnState)).2.cache.lookup s =
        some (getTenantDb s (runCalls calls initConnState)).1 ∧
      (getTenantDb s (runCalls calls initConnState)).2.created =
        (runCalls calls initConnState).created ++
          [(getTenantDb s (runCalls calls initConnState)).1]) := by
  obtain ⟨h1, h2, h3, h4⟩ := connWF_runCalls calls initConnState connWF_init
  refine ⟨h1, h2, fun s => filter_path_le_one h3 s, ?_, ?_⟩
  · intro s p hl
    unfold getTenantDb
    rw [hl]
  · intro s hl
    unfold getTenantDb
    rw [hl]
    refine ⟨rfl, ?_, rfl⟩
    show ((runCalls calls initConnState).cache ++
        [(s, (⟨s, (runCalls calls initConnState).nextUid⟩ : Pool))]).lookup s =
      some ⟨s, (runCalls calls initConnState).nextUid⟩
    rw [lookup_append_none _ _ hl]
    exact lookup_cons_self s _ _

theorem connection_cache_single_pool_witness :
    ((runCalls ["tenant_w9", "tenant_w9"] initConnState).created.filter
      (fun p => p.searchPath == "tenant_w9")).length ≤ 1 :=
  (connection_cache_single_pool ["tenant_w9", "tenant_w9"]).2.2.1 "tenant_w9"

theorem schemaName_derivation_identifier_safe_witness :
    '_' ∉ (deriveSlug "Acme Corp").data :=
  (schemaName_derivation_identifier_safe "Acme Corp").2.2
